import Mathlib

/-!
# Verification of the payment-confirmation generator (`app.py`)

A shallow embedding of the CSV → PDF → ZIP pipeline of `app.py`:

* `dictReaderRows` models `csv.DictReader` over the split lines of the
  decoded upload (header row defines the field names; short rows are
  filled with Python `None`, the `restval` default; blank rows are
  skipped).
* `generate_payment_pdf` models the renderer.  The PDF byte output is
  abstracted to the list of text lines placed into the body cells (the
  static letterhead, the render-time date line and the signature image
  are external resources / the clock, out of the modelled scope); the
  in-place mutation of the Python dict is modelled by returning the
  updated mapping alongside the body lines.
* `processRows` models the per-row loop of the `POST` branch of `index`:
  filtering on `Částka`, rendering, and filename construction.  The
  temporary-directory round trip is identity on the bytes and is not
  modelled (the archive entry name is exactly the constructed filename).
* `zipCreate` models `zipfile.ZipFile` writing as the list of
  `(arcname, content)` entries of the produced archive.
* `decodeUtf16Replace` models `bytes.decode("utf-16", errors="replace")`
  (BOM detection, little-endian default, surrogate-pair combination,
  U+FFFD replacement for malformed input).

Python `None` appearing as a dict value is modelled by `Option.none`;
an `AttributeError` raised by calling a `str` method on `None` is
modelled by `Except.error PyError.attributeError`.
-/

/-- A value stored in a CSV row dict: `none` models Python `None` (the
`csv.DictReader` fill value for short rows), `some s` a string. -/
abbrev PyVal := Option String

/-- A CSV row dict (`csv.DictReader` row): insertion-ordered association
list with unique keys. -/
abbrev Row := List (String × PyVal)

/-- The exception raised when a `str` method is invoked on `None`. -/
inductive PyError where
  | attributeError
deriving DecidableEq, Repr

/-- Python `f"{v}"` formatting of a dict value: `None` prints as `"None"`. -/
def pyFormat (v : PyVal) : String :=
  match v with
  | some s => s
  | none => "None"

/-- Python `row.get(key, dflt)`: the stored value (possibly `None`) when
the key is present, the default otherwise. -/
def rowGet (row : Row) (key : String) (dflt : PyVal) : PyVal :=
  match row.lookup key with
  | some v => v
  | none => dflt

/-- Python dict assignment `d[k] = v`: overwrite in place when the key is
present, append otherwise. -/
def dictInsert (d : Row) (k : String) (v : PyVal) : Row :=
  if d.any (fun kv => kv.1 == k) then
    d.map (fun kv => if kv.1 == k then (k, v) else kv)
  else d ++ [(k, v)]

/-- One `csv.DictReader` data row: `dict(zip(fieldnames, cells))`, with the
field names not covered by a short row filled with `restval` (`None`).
Extra cells of a long row go under the non-string `restkey` key `None`,
which no string lookup and no string-valued test can observe; that entry
is therefore not represented. -/
def mkRow (fieldnames cells : List String) : Row :=
  let d := (List.zip fieldnames cells).foldl (fun d kv => dictInsert d kv.1 (some kv.2)) []
  (fieldnames.drop cells.length).foldl (fun d k => dictInsert d k none) d

/-- `csv.DictReader` over already-split rows: the first row is the header
(field names), blank rows (`row == []`) are skipped, every other row
becomes a dict via `mkRow`. -/
def dictReaderRows (parsed : List (List String)) : List Row :=
  match parsed with
  | [] => []
  | fieldnames :: rest => (rest.filter (fun r => !r.isEmpty)).map (mkRow fieldnames)

/-- Comma splitting of one CSV line (accumulator holds the current cell
reversed). -/
def splitCells : List Char → List Char → List String
  | [], acc => [⟨acc.reverse⟩]
  | ',' :: rest, acc => ⟨acc.reverse⟩ :: splitCells rest []
  | c :: rest, acc => splitCells rest (c :: acc)

/-- `csv.reader` parsing of one line with the default comma dialect, for
lines without quote characters: an empty line is the empty row, any other
line is split on `,`. -/
def parseCsvLine (line : String) : List String :=
  if line.isEmpty then [] else splitCells line.data []

/-- The line-break characters recognised by Python `str.splitlines`
(besides the two-character `"\r\n"`). -/
def lineBreakChars : List Char :=
  ['\n', '\r', '\x0b', '\x0c', '\x1c', '\x1d', '\x1e', '\u0085', '\u2028', '\u2029']

/-- Python `str.splitlines`: split at every line break (with `"\r\n"`
counting as a single break), no trailing empty line. -/
def pySplitlinesAux : List Char → List Char → List String
  | [], acc => if acc.isEmpty then [] else [⟨acc.reverse⟩]
  | '\r' :: '\n' :: rest, acc => ⟨acc.reverse⟩ :: pySplitlinesAux rest []
  | c :: rest, acc =>
    if c ∈ lineBreakChars then ⟨acc.reverse⟩ :: pySplitlinesAux rest []
    else pySplitlinesAux rest (c :: acc)

def pySplitlines (s : String) : List String :=
  pySplitlinesAux s.data []

/-- Python `s.startswith(c)` for a string and a single-character prefix. -/
def strStartsWithChar (s : String) (c : Char) : Bool :=
  match s.data with
  | [] => false
  | c0 :: _ => c0 = c

/-- Python `s.replace(a, b)` for single-character arguments. -/
def strReplaceChar (s : String) (a b : Char) : String :=
  ⟨s.data.map (fun c => if c = a then b else c)⟩

/-- Python `v.startswith(c)` for a single-character prefix, on a value
that may be `None`: raises `AttributeError` on `None`. -/
def pyStartsWith (v : PyVal) (c : Char) : Except PyError Bool :=
  match v with
  | some s => .ok (strStartsWithChar s c)
  | none => .error .attributeError

/-- Python `v.replace(a, b)` for single-character arguments, on a value
that may be `None`: raises `AttributeError` on `None`. -/
def pyReplaceChar (v : PyVal) (a b : Char) : Except PyError String :=
  match v with
  | some s => .ok (strReplaceChar s a b)
  | none => .error .attributeError

/-- The sentinel for missing or empty fields (`NOT_SPECIFIED` in the
source). -/
def NOT_SPECIFIED : String := "neuvedeno"

/-- The in-place loop `for key in row: if row[key] == "": row[key] =
NOT_SPECIFIED` of `generate_payment_pdf`: every key whose value is the
empty string is overwritten with the sentinel. -/
def normalizeRow (row : Row) : Row :=
  row.map (fun kv => if kv.2 = some "" then (kv.1, some NOT_SPECIFIED) else kv)

/-- `row.get(key, NOT_SPECIFIED)` followed by f-string formatting: the
field extraction used for every body line of `generate_payment_pdf`. -/
def extractField (row : Row) (key : String) : String :=
  pyFormat (rowGet row key (some NOT_SPECIFIED))

/-- The renderer `generate_payment_pdf` of `app.py`, with the PDF byte
output abstracted to the list of body text lines.  The first component is
the row dict after the in-place empty-value normalisation (the caller's
dict object, mutated). -/
def generate_payment_pdf (row : Row) : Row × List String :=
  let row := normalizeRow row
  let datum_zauctovani := extractField row "Datum zaúčtování"
  let nazev_protiuctu := extractField row "Název protiúčtu"
  let iban := extractField row "IBAN"
  let bic := extractField row "BIC"
  let protiucet := extractField row "Protiúčet"
  let bankovni_kod := extractField row "Bankovní kód protiúčtu"
  let jmeno_a_oddil := extractField row "Zpráva pro příjemce"
  let castka := extractField row "Částka"
  let mena := extractField row "Měna"
  let var_symbol := extractField row "Variabilní symbol"
  (row,
   [ "Potvrzujeme přijetí platby ve prospěch naší jednoty za níže uvedeného člena\n a pohybovou aktivitu.",
     "Jméno a pohybová aktivita: " ++ jmeno_a_oddil,
     "Rodné číslo (var. symbol): " ++ var_symbol,
     "Detail platby:",
     "Přijato dne: " ++ datum_zauctovani,
     "Částka: " ++ castka ++ " " ++ mena,
     "Příjemce: Tělocvičná jednota Sokol Brno – Jundrov, IČO: 44995989" ])

/-- Decimal digit character. -/
def digitChar (d : Nat) : Char := Char.ofNat (48 + d)

/-- Fuel-driven decimal printing accumulator (most significant digit
first once the accumulator is unwound). -/
def toDecAux : Nat → Nat → List Char → List Char
  | 0, _, acc => acc
  | fuel + 1, n, acc =>
    if n = 0 then acc else toDecAux fuel (n / 10) (digitChar (n % 10) :: acc)

/-- Python `f"{n}"` for a nonnegative integer: its decimal numeral. -/
def natToDecimal (n : Nat) : String :=
  if n = 0 then "0" else ⟨toDecAux n n []⟩

/-- The f-string `f"row{row_number}_{datum_zauctovani}.pdf"` of `index`. -/
def mkFilename (n : Nat) (datum : String) : String :=
  "row" ++ natToDecimal n ++ "_" ++ datum ++ ".pdf"

/-- One entry of the produced archive: the constructed filename and the
rendered document (abstracted to its body lines). -/
structure ArchiveEntry where
  filename : String
  body : List String
deriving DecidableEq, Repr

/-- The per-row loop of the `POST` branch of `index`: skip rows whose
`Částka` value starts with `-`, otherwise advance the sequence number,
render, and build the filename from the (mutated) row's
`Datum zaúčtování` with `.` replaced by `-`. -/
def processRows (row_number : Nat) : List Row → Except PyError (List ArchiveEntry)
  | [] => .ok []
  | row :: rest => do
    let amount := rowGet row "Částka" (some "")
    let neg ← pyStartsWith amount '-'
    if neg then
      processRows row_number rest
    else
      let row_number := row_number + 1
      let rendered := generate_payment_pdf row
      let datum_zauctovani ← pyReplaceChar (rowGet rendered.1 "Datum zaúčtování" (some "")) '.' '-'
      let pdf_filename := mkFilename row_number datum_zauctovani
      let rest_entries ← processRows row_number rest
      .ok (⟨pdf_filename, rendered.2⟩ :: rest_entries)

/-- The in-memory ZIP archive produced by `zipfile.ZipFile(zip_buffer, 'w')`:
its independent entries, addressed by archive name. -/
structure ZipFile where
  entries : List (String × List String)
deriving DecidableEq, Repr

/-- Writing every generated document into the archive under its filename. -/
def zipCreate (es : List ArchiveEntry) : ZipFile :=
  ⟨es.map (fun e => (e.filename, e.body))⟩

/-- `ZipFile.namelist()`: the entry names of the archive. -/
def ZipFile.namelist (z : ZipFile) : List String :=
  z.entries.map Prod.fst

/-- The pipeline of the `POST` branch of `index` from the decoded CSV
text: split lines, parse, read rows, process. -/
def runCsvText (decoded_csv : String) : Except PyError (List ArchiveEntry) :=
  processRows 0 (dictReaderRows ((pySplitlines decoded_csv).map parseCsvLine))

/-- UTF-16 code-unit extraction: combine consecutive byte pairs into
16-bit units (`be` selects big-endian order); the Boolean records a
dangling final byte of an odd-length input. -/
def utf16Units (be : Bool) : List Nat → List Nat × Bool
  | [] => ([], false)
  | [_] => ([], true)
  | b0 :: b1 :: rest =>
    let p := utf16Units be rest
    ((if be then 256 * b0 + b1 else b0 + 256 * b1) :: p.1, p.2)

/-- Decoding of a UTF-16 code-unit sequence with `errors="replace"`:
well-placed surrogate pairs combine, any malformed unit becomes U+FFFD,
and decoding always continues. -/
def decodeUnitsReplace : List Nat → List Nat
  | [] => []
  | [u] => if u < 0xD800 ∨ 0xE000 ≤ u then [u] else [0xFFFD]
  | u :: v :: rest =>
    if u < 0xD800 ∨ 0xE000 ≤ u then u :: decodeUnitsReplace (v :: rest)
    else if u < 0xDC00 then
      if 0xDC00 ≤ v ∧ v < 0xE000 then
        (0x10000 + (u - 0xD800) * 0x400 + (v - 0xDC00)) :: decodeUnitsReplace rest
      else 0xFFFD :: decodeUnitsReplace (v :: rest)
    else 0xFFFD :: decodeUnitsReplace (v :: rest)

/-- Decoding of a UTF-16 code-unit sequence with `errors="strict"`:
`none` models a raised `UnicodeDecodeError`. -/
def decodeUnitsStrict : List Nat → Option (List Nat)
  | [] => some []
  | [u] => if u < 0xD800 ∨ 0xE000 ≤ u then some [u] else none
  | u :: v :: rest =>
    if u < 0xD800 ∨ 0xE000 ≤ u then (decodeUnitsStrict (v :: rest)).map (u :: ·)
    else if u < 0xDC00 then
      if 0xDC00 ≤ v ∧ v < 0xE000 then
        (decodeUnitsStrict rest).map ((0x10000 + (u - 0xD800) * 0x400 + (v - 0xDC00)) :: ·)
      else none
    else none

/-- BOM handling of the `utf-16` codec: a leading `FF FE` selects little
endian, `FE FF` big endian (the BOM consumed either way); otherwise the
native (little-endian) order is used from the first byte. -/
def utf16Payload (bs : List Nat) : Bool × List Nat :=
  match bs with
  | b0 :: b1 :: rest =>
    if b0 = 0xFF ∧ b1 = 0xFE then (false, rest)
    else if b0 = 0xFE ∧ b1 = 0xFF then (true, rest)
    else (false, bs)
  | _ => (false, bs)

/-- `bytes.decode("utf-16", errors="replace")`, as the produced code
points: every malformed fragment (unpaired surrogate, dangling final
byte) contributes U+FFFD and decoding never fails. -/
def decodeUtf16Replace (bs : List Nat) : List Nat :=
  decodeUnitsReplace (utf16Units (utf16Payload bs).1 (utf16Payload bs).2).1 ++
    (if (utf16Units (utf16Payload bs).1 (utf16Payload bs).2).2 then [0xFFFD] else [])

/-- `bytes.decode("utf-16")` in the default strict mode: `none` models a
raised `UnicodeDecodeError`. -/
def decodeUtf16Strict (bs : List Nat) : Option (List Nat) :=
  if (utf16Units (utf16Payload bs).1 (utf16Payload bs).2).2 then none
  else decodeUnitsStrict (utf16Units (utf16Payload bs).1 (utf16Payload bs).2).1

/-- A code point that a decoded string may contain: a Unicode scalar
value (in range and not a surrogate). -/
def IsScalarValue (c : Nat) : Prop :=
  c < 0x110000 ∧ (c < 0xD800 ∨ 0xE000 ≤ c)

instance (c : Nat) : Decidable (IsScalarValue c) := by
  unfold IsScalarValue; infer_instance

/-- Decoded code points as a string (all points produced by the decoder
are scalar values). -/
def codePointsToString (cs : List Nat) : String :=
  ⟨cs.map Char.ofNat⟩

/-- The response of the `index` endpoint on a `POST` request. -/
inductive HttpResponse where
  | clientError (message : String) (status : Nat)
  | fileDownload (download_name : String) (zip : ZipFile)
deriving DecidableEq, Repr

/-- The `POST` branch of `index`: with no upload (or a falsy one) reply
`"No file uploaded."` with status 400 before any processing; otherwise
decode the bytes as UTF-16 (lossy), run the row pipeline, and return the
archive as `pdf_confirmations.zip`. -/
def index_post (upload : Option (List Nat)) : Except PyError HttpResponse :=
  match upload with
  | none => .ok (.clientError "No file uploaded." 400)
  | some csv_data => do
    let decoded_csv := codePointsToString (decodeUtf16Replace csv_data)
    let entries ← runCsvText decoded_csv
    .ok (.fileDownload "pdf_confirmations.zip" (zipCreate entries))

/-- The row count the specification's claim C1 speaks of: rows whose
`Částka` value does not start with `-`, a missing field counting as not
starting with `-`. -/
def specKept (row : Row) : Bool :=
  match rowGet row "Částka" (some "") with
  | some s => !strStartsWithChar s '-'
  | none => true

/-- Filenames numbered consecutively from `n`: the shape the archive's
name list takes. -/
def filenamesFrom : Nat → List String → List String
  | _, [] => []
  | n, d :: ds => mkFilename n d :: filenamesFrom (n + 1) ds

/-- The numeric value of a decimal digit string (proof-side inverse of
`natToDecimal`). -/
def decVal (cs : List Char) : Nat :=
  cs.foldl (fun a c => a * 10 + (c.toNat - 48)) 0

/-! ## Lemmas about the decimal numeral -/

theorem digitChar_toNat {d : Nat} (h : d < 10) : (digitChar d).toNat = 48 + d := by
  unfold digitChar
  interval_cases d <;> decide

theorem toDecAux_zero (fuel : Nat) (acc : List Char) : toDecAux fuel 0 acc = acc := by
  cases fuel <;> simp [toDecAux]

theorem toDecAux_append (n : Nat) : ∀ fuel acc, n ≤ fuel →
    toDecAux fuel n acc = toDecAux fuel n [] ++ acc := by
  induction n using Nat.strong_induction_on with
  | _ n ih =>
    intro fuel acc hle
    by_cases h0 : n = 0
    · subst h0; rw [toDecAux_zero, toDecAux_zero]; simp
    · match fuel with
      | 0 => omega
      | f + 1 =>
        have hdiv : n / 10 < n := Nat.div_lt_self (by omega) (by omega)
        have hdivf : n / 10 ≤ f := by omega
        rw [toDecAux, toDecAux, if_neg h0, if_neg h0,
          ih (n / 10) hdiv f (digitChar (n % 10) :: acc) hdivf,
          ih (n / 10) hdiv f [digitChar (n % 10)] hdivf]
        simp

theorem decVal_append_digit (xs : List Char) (d : Char) :
    decVal (xs ++ [d]) = decVal xs * 10 + (d.toNat - 48) := by
  unfold decVal
  rw [List.foldl_append]; rfl

theorem decVal_toDecAux (n : Nat) : ∀ fuel, n ≤ fuel → decVal (toDecAux fuel n []) = n := by
  induction n using Nat.strong_induction_on with
  | _ n ih =>
    intro fuel hle
    by_cases h0 : n = 0
    · subst h0; rw [toDecAux_zero]; rfl
    · match fuel with
      | 0 => omega
      | f + 1 =>
        have hdiv : n / 10 < n := Nat.div_lt_self (by omega) (by omega)
        have hdivf : n / 10 ≤ f := by omega
        rw [toDecAux, if_neg h0, toDecAux_append (n / 10) f _ hdivf,
          decVal_append_digit, ih (n / 10) hdiv f hdivf,
          digitChar_toNat (Nat.mod_lt n (by omega))]
        omega

theorem decVal_natToDecimal (n : Nat) : decVal (natToDecimal n).data = n := by
  unfold natToDecimal
  by_cases h0 : n = 0
  · subst h0; decide
  · rw [if_neg h0]
    exact decVal_toDecAux n n (Nat.le_refl n)

theorem natToDecimal_inj {n m : Nat} (h : natToDecimal n = natToDecimal m) : n = m := by
  have hn := decVal_natToDecimal n
  have hm := decVal_natToDecimal m
  rw [h] at hn
  omega

theorem toDecAux_digits : ∀ fuel n acc, (∀ c ∈ acc, 48 ≤ c.toNat ∧ c.toNat ≤ 57) →
    ∀ c ∈ toDecAux fuel n acc, 48 ≤ c.toNat ∧ c.toNat ≤ 57 := by
  intro fuel
  induction fuel with
  | zero => intro n acc hacc; simpa [toDecAux] using hacc
  | succ f ihf =>
    intro n acc hacc c hc
    rw [toDecAux] at hc
    by_cases h0 : n = 0
    · rw [if_pos h0] at hc; exact hacc c hc
    · rw [if_neg h0] at hc
      refine ihf (n / 10) (digitChar (n % 10) :: acc) ?_ c hc
      intro c' hc'
      rcases List.mem_cons.mp hc' with h | h
      · subst h
        rw [digitChar_toNat (Nat.mod_lt n (by omega))]
        omega
      · exact hacc c' h

theorem natToDecimal_digits (n : Nat) : ∀ c ∈ (natToDecimal n).data, 48 ≤ c.toNat ∧ c.toNat ≤ 57 := by
  unfold natToDecimal
  by_cases h0 : n = 0
  · subst h0; decide
  · rw [if_neg h0]
    exact toDecAux_digits n n [] (by simp)

theorem natToDecimal_no_underscore (n : Nat) : ∀ c ∈ (natToDecimal n).data, c ≠ '_' := by
  intro c hc he
  have := natToDecimal_digits n c hc
  subst he
  revert this
  decide

theorem append_underscore_inj : ∀ (xs ys t1 t2 : List Char), (∀ c ∈ xs, c ≠ '_') →
    (∀ c ∈ ys, c ≠ '_') → xs ++ '_' :: t1 = ys ++ '_' :: t2 → xs = ys := by
  intro xs
  induction xs with
  | nil =>
    intro ys t1 t2 _ hys h
    cases ys with
    | nil => rfl
    | cons y ys' =>
      exfalso
      apply hys y (List.mem_cons_self y ys')
      simpa using congrArg (fun l => l.head?) h.symm
  | cons x xs' ih =>
    intro ys t1 t2 hxs hys h
    cases ys with
    | nil =>
      exfalso
      apply hxs x (List.mem_cons_self x xs')
      simpa using congrArg (fun l => l.head?) h
    | cons y ys' =>
      simp only [List.cons_append, List.cons.injEq] at h
      rw [h.1, ih ys' t1 t2 (fun c hc => hxs c (List.mem_cons_of_mem x hc))
        (fun c hc => hys c (List.mem_cons_of_mem y hc)) h.2]

theorem mkFilename_inj {n m : Nat} {d e : String} (h : mkFilename n d = mkFilename m e) :
    n = m := by
  unfold mkFilename at h
  have hd : ("row".data ++ (natToDecimal n).data) ++ ('_' :: (d.data ++ ".pdf".data)) =
      ("row".data ++ (natToDecimal m).data) ++ ('_' :: (e.data ++ ".pdf".data)) := by
    have := congrArg String.data h
    simp only [String.data_append] at this
    simpa [List.append_assoc] using this
  rw [List.append_assoc, List.append_assoc] at hd
  have hd2 := List.append_cancel_left hd
  have hnd : (natToDecimal n).data = (natToDecimal m).data :=
    append_underscore_inj _ _ _ _ (natToDecimal_no_underscore n) (natToDecimal_no_underscore m) hd2
  have hn := decVal_natToDecimal n
  have hm := decVal_natToDecimal m
  rw [show (natToDecimal n).data = (natToDecimal m).data from hnd] at hn
  omega

/-! ## Lemmas about the filename sequence -/

theorem filenamesFrom_not_mem_lt : ∀ (ds : List String) (m j : Nat) (d : String), j < m →
    mkFilename j d ∉ filenamesFrom m ds := by
  intro ds
  induction ds with
  | nil => intro m j d _ h; simp [filenamesFrom] at h
  | cons d' ds' ih =>
    intro m j d hlt h
    rcases List.mem_cons.mp h with he | ht
    · have := mkFilename_inj he
      omega
    · exact ih (m + 1) j d (by omega) ht

theorem filenamesFrom_pairwise : ∀ (ds : List String) (m : Nat),
    (filenamesFrom m ds).Pairwise (fun a b => a ≠ b) := by
  intro ds
  induction ds with
  | nil => intro m; simp [filenamesFrom]
  | cons d ds' ih =>
    intro m
    rw [filenamesFrom]
    refine List.Pairwise.cons ?_ (ih (m + 1))
    intro b hb he
    rw [← he] at hb
    exact filenamesFrom_not_mem_lt ds' (m + 1) m d (by omega) hb

/-! ## Lemmas about row normalisation and lookups -/

theorem lookup_normalizeRow (row : Row) (k : String) :
    (normalizeRow row).lookup k =
      (row.lookup k).map (fun v => if v = some "" then some NOT_SPECIFIED else v) := by
  induction row with
  | nil => rfl
  | cons kv t ih =>
    obtain ⟨a, v⟩ := kv
    have hcons : normalizeRow ((a, v) :: t) =
        (if v = some "" then (a, some NOT_SPECIFIED) else (a, v)) :: normalizeRow t := rfl
    rw [hcons]
    by_cases hk : k = a
    · subst hk
      by_cases hv : v = some ""
      · rw [if_pos hv, hv]
        simp [List.lookup]
      · rw [if_neg hv]
        simp [List.lookup, hv]
    · have hbk : (k == a) = false := beq_false_of_ne hk
      by_cases hv : v = some ""
      · rw [if_pos hv]
        simp only [List.lookup, hbk]
        exact ih
      · rw [if_neg hv]
        simp only [List.lookup, hbk]
        exact ih

theorem rowGet_normalizeRow_none (row : Row) (k : String) :
    rowGet (normalizeRow row) k (some "") = none ↔ rowGet row k (some "") = none := by
  unfold rowGet
  rw [lookup_normalizeRow]
  cases h : row.lookup k with
  | none => simp
  | some v =>
    cases v with
    | none => simp
    | some s =>
      by_cases hs : s = ""
      · subst hs; simp [NOT_SPECIFIED]
      · simp [hs]

theorem rowGet_normalizeRow_eq (row : Row) (k : String) (dflt : PyVal) :
    rowGet (normalizeRow row) k dflt =
      match row.lookup k with
      | some v => if v = some "" then some NOT_SPECIFIED else v
      | none => dflt := by
  unfold rowGet
  rw [lookup_normalizeRow]
  cases row.lookup k <;> rfl

theorem generate_payment_pdf_fst (row : Row) : (generate_payment_pdf row).1 = normalizeRow row := rfl

/-! ## Step lemmas for the row-processing loop -/

theorem processRows_cons_none {c : Nat} {row : Row} {rest : List Row}
    (hA : rowGet row "Částka" (some "") = none) :
    processRows c (row :: rest) = .error .attributeError := by
  simp only [processRows, hA, pyStartsWith]
  rfl

theorem processRows_cons_skip {c : Nat} {row : Row} {rest : List Row} {s : String}
    (hA : rowGet row "Částka" (some "") = some s) (hs : strStartsWithChar s '-' = true) :
    processRows c (row :: rest) = processRows c rest := by
  simp only [processRows, hA, pyStartsWith, hs]
  rfl

theorem processRows_cons_accept {c : Nat} {row : Row} {rest : List Row} {s : String}
    (hA : rowGet row "Částka" (some "") = some s) (hs : strStartsWithChar s '-' = false) :
    processRows c (row :: rest) =
      (pyReplaceChar (rowGet (generate_payment_pdf row).1 "Datum zaúčtování" (some "")) '.' '-').bind
        (fun datum => (processRows (c + 1) rest).map
          (fun tl => ⟨mkFilename (c + 1) datum, (generate_payment_pdf row).2⟩ :: tl)) := by
  simp only [processRows, hA, pyStartsWith, hs]
  show (pyReplaceChar (rowGet (generate_payment_pdf row).1 "Datum zaúčtování" (some "")) '.' '-').bind _ = _
  cases pyReplaceChar (rowGet (generate_payment_pdf row).1 "Datum zaúčtování" (some "")) '.' '-' with
  | error e => rfl
  | ok d =>
    show (processRows (c + 1) rest).bind _ = (processRows (c + 1) rest).map _
    cases processRows (c + 1) rest <;> rfl

theorem processRows_ok_accept {c : Nat} {row : Row} {rest : List Row} {es : List ArchiveEntry}
    {s : String}
    (hA : rowGet row "Částka" (some "") = some s) (hs : strStartsWithChar s '-' = false)
    (h : processRows c (row :: rest) = .ok es) :
    ∃ d tl, rowGet (normalizeRow row) "Datum zaúčtování" (some "") = some d ∧
      es = ⟨mkFilename (c + 1) (strReplaceChar d '.' '-'), (generate_payment_pdf row).2⟩ :: tl ∧
      processRows (c + 1) rest = .ok tl := by
  rw [processRows_cons_accept hA hs] at h
  rw [generate_payment_pdf_fst] at h
  cases hd : rowGet (normalizeRow row) "Datum zaúčtování" (some "") with
  | none => rw [hd] at h; exact absurd h (by simp [pyReplaceChar, Except.bind])
  | some d =>
    rw [hd] at h
    simp only [pyReplaceChar, Except.bind] at h
    cases ht : processRows (c + 1) rest with
    | error e => rw [ht] at h; exact absurd h (by simp [Except.map])
    | ok tl =>
      rw [ht] at h
      simp only [Except.map] at h
      exact ⟨d, tl, rfl, (Except.ok.injEq _ _ ▸ h).symm ▸ rfl, rfl⟩

/-! ## Main pipeline lemmas -/

theorem processRows_ok_length : ∀ (rows : List Row) (c : Nat),
    (∀ row ∈ rows, rowGet row "Částka" (some "") ≠ none) →
    (∀ row ∈ rows, specKept row = true → rowGet row "Datum zaúčtování" (some "") ≠ none) →
    ∃ es, processRows c rows = .ok es ∧ es.length = (rows.filter specKept).length := by
  intro rows
  induction rows with
  | nil => intro c _ _; exact ⟨[], rfl, rfl⟩
  | cons row rest ih =>
    intro c hA hD
    cases hval : rowGet row "Částka" (some "") with
    | none => exact absurd hval (hA row (List.mem_cons_self row rest))
    | some s =>
      have hkept : specKept row = !strStartsWithChar s '-' := by
        unfold specKept; rw [hval]
      cases hdash : strStartsWithChar s '-' with
      | true =>
        have hk : specKept row = false := by rw [hkept, hdash]; rfl
        obtain ⟨es, h1, h2⟩ := ih c (fun r hr => hA r (List.mem_cons_of_mem row hr))
          (fun r hr => hD r (List.mem_cons_of_mem row hr))
        refine ⟨es, by rw [processRows_cons_skip hval hdash]; exact h1, ?_⟩
        rw [List.filter_cons, hk]
        simpa using h2
      | false =>
        have hk : specKept row = true := by rw [hkept, hdash]; rfl
        have hdat : rowGet row "Datum zaúčtování" (some "") ≠ none :=
          hD row (List.mem_cons_self row rest) hk
        cases hdn : rowGet (normalizeRow row) "Datum zaúčtování" (some "") with
        | none => exact absurd ((rowGet_normalizeRow_none row _).mp hdn) hdat
        | some d =>
          obtain ⟨es, h1, h2⟩ := ih (c + 1) (fun r hr => hA r (List.mem_cons_of_mem row hr))
            (fun r hr => hD r (List.mem_cons_of_mem row hr))
          refine ⟨⟨mkFilename (c + 1) (strReplaceChar d '.' '-'),
            (generate_payment_pdf row).2⟩ :: es, ?_, ?_⟩
          · rw [processRows_cons_accept hval hdash, generate_payment_pdf_fst, hdn]
            simp only [pyReplaceChar, Except.bind]
            rw [h1]
            rfl
          · rw [List.filter_cons, hk]
            simpa using h2

theorem processRows_ok_filenames : ∀ (rows : List Row) (c : Nat) (es : List ArchiveEntry),
    processRows c rows = .ok es →
    ∃ dates, dates.length = es.length ∧
      es.map ArchiveEntry.filename = filenamesFrom (c + 1) dates := by
  intro rows
  induction rows with
  | nil =>
    intro c es h
    simp only [processRows, Except.ok.injEq] at h
    subst h
    exact ⟨[], rfl, rfl⟩
  | cons row rest ih =>
    intro c es h
    cases hval : rowGet row "Částka" (some "") with
    | none =>
      rw [processRows_cons_none hval] at h
      cases h
    | some s =>
      cases hdash : strStartsWithChar s '-' with
      | true =>
        rw [processRows_cons_skip hval hdash] at h
        exact ih c es h
      | false =>
        obtain ⟨d, tl, hdn, hes, htl⟩ := processRows_ok_accept hval hdash h
        obtain ⟨dates, hlen, hmap⟩ := ih (c + 1) tl htl
        refine ⟨strReplaceChar d '.' '-' :: dates, by simp [hes, hlen], ?_⟩
        rw [hes]
        simp only [List.map_cons]
        rw [hmap, filenamesFrom]

theorem processRows_all_skip : ∀ (rows : List Row) (c : Nat),
    (∀ row ∈ rows, ∃ s, rowGet row "Částka" (some "") = some s ∧
      strStartsWithChar s '-' = true) →
    processRows c rows = .ok [] := by
  intro rows
  induction rows with
  | nil => intro c _; rfl
  | cons row rest ih =>
    intro c h
    obtain ⟨s, hs, hd⟩ := h row (List.mem_cons_self row rest)
    rw [processRows_cons_skip hs hd]
    exact ih c (fun r hr => h r (List.mem_cons_of_mem row hr))

/-! ## Claim C1 (archive entry count) -/

/-- C1, counterexample to the claim as stated: on the CSV
`"Datum zaúčtování,Částka\n01-01-2024"` the single data row lacks a cell
for the `Částka` column, so the claim counts it as kept (count 1), but
the program raises `AttributeError` (`None.startswith`) and produces no
archive at all. -/
theorem c1_count_claim_fails :
    runCsvText "Datum zaúčtování,Částka\n01-01-2024" = .error .attributeError ∧
    ((dictReaderRows ((pySplitlines "Datum zaúčtování,Částka\n01-01-2024").map parseCsvLine)).filter
      specKept).length = 1 :=
  ⟨rfl, rfl⟩

/-- C1, amended: for every CSV input in which every data row carries a
string for the `Částka` column (no `None` fill from a short row) and, on
every kept row, also for the `Datum zaúčtování` column, processing
succeeds and the number of archive entries equals the number of data
rows whose `Částka` value does not textually start with `-` (a missing
field counting as kept). -/
theorem c1_entry_count (parsed : List (List String))
    (hA : ∀ row ∈ dictReaderRows parsed, rowGet row "Částka" (some "") ≠ none)
    (hD : ∀ row ∈ dictReaderRows parsed, specKept row = true →
      rowGet row "Datum zaúčtování" (some "") ≠ none) :
    ∃ es, processRows 0 (dictReaderRows parsed) = .ok es ∧
      (zipCreate es).entries.length = ((dictReaderRows parsed).filter specKept).length := by
  obtain ⟨es, h1, h2⟩ := processRows_ok_length (dictReaderRows parsed) 0 hA hD
  exact ⟨es, h1, by simpa [zipCreate] using h2⟩

/-- Witness for C1: a three-row CSV (one negative, two kept). -/
theorem c1_entry_count_witness :
    ∃ es, processRows 0 (dictReaderRows [["Částka"], ["-50"], ["100"], ["200"]]) = .ok es ∧
      (zipCreate es).entries.length =
        ((dictReaderRows [["Částka"], ["-50"], ["100"], ["200"]]).filter specKept).length :=
  c1_entry_count [["Částka"], ["-50"], ["100"], ["200"]] (by decide) (by decide)

/-! ## Claim C3 (ragged rows) -/

/-- C3: the code, evaluated at a ragged data row that lacks a cell for
the `Částka` column (`csv.DictReader` fills it with `None`), raises
`AttributeError` instead of tolerating the row as the specification
requires. -/
theorem c3_ragged_row_raises :
    runCsvText "Měna,Částka\nCZK" = .error .attributeError :=
  rfl

/-! ## Claim C4 (filename sequence) -/

/-- C4: whenever processing succeeds, the archive's filenames are
`mkFilename` applied to the consecutive sequence numbers 1, 2, … (one
per accepted record, skipped rows not advancing the counter), and all
filenames are pairwise distinct. -/
theorem c4_filenames_sequential_distinct (parsed : List (List String)) (es : List ArchiveEntry)
    (h : processRows 0 (dictReaderRows parsed) = .ok es) :
    (∃ dates, dates.length = es.length ∧
      es.map ArchiveEntry.filename = filenamesFrom 1 dates) ∧
    (es.map ArchiveEntry.filename).Pairwise (fun a b => a ≠ b) := by
  obtain ⟨dates, h1, h2⟩ := processRows_ok_filenames (dictReaderRows parsed) 0 es h
  refine ⟨⟨dates, h1, h2⟩, ?_⟩
  rw [h2]
  exact filenamesFrom_pairwise dates 1

/-- Witness for C4: a four-row CSV with one filtered row and two
accepted rows, giving filenames `row1_01-02.pdf` and
`row2_neuvedeno.pdf`. -/
theorem c4_filenames_sequential_distinct_witness :
    (∃ dates, dates.length =
        ([⟨"row1_01-02.pdf",
            ["Potvrzujeme přijetí platby ve prospěch naší jednoty za níže uvedeného člena\n a pohybovou aktivitu.",
             "Jméno a pohybová aktivita: neuvedeno", "Rodné číslo (var. symbol): neuvedeno",
             "Detail platby:", "Přijato dne: 01.02", "Částka: 100 neuvedeno",
             "Příjemce: Tělocvičná jednota Sokol Brno – Jundrov, IČO: 44995989"]⟩,
          ⟨"row2_neuvedeno.pdf",
            ["Potvrzujeme přijetí platby ve prospěch naší jednoty za níže uvedeného člena\n a pohybovou aktivitu.",
             "Jméno a pohybová aktivita: neuvedeno", "Rodné číslo (var. symbol): neuvedeno",
             "Detail platby:", "Přijato dne: neuvedeno", "Částka: 200 neuvedeno",
             "Příjemce: Tělocvičná jednota Sokol Brno – Jundrov, IČO: 44995989"]⟩] :
          List ArchiveEntry).length ∧
      ([⟨"row1_01-02.pdf",
          ["Potvrzujeme přijetí platby ve prospěch naší jednoty za níže uvedeného člena\n a pohybovou aktivitu.",
           "Jméno a pohybová aktivita: neuvedeno", "Rodné číslo (var. symbol): neuvedeno",
           "Detail platby:", "Přijato dne: 01.02", "Částka: 100 neuvedeno",
           "Příjemce: Tělocvičná jednota Sokol Brno – Jundrov, IČO: 44995989"]⟩,
        ⟨"row2_neuvedeno.pdf",
          ["Potvrzujeme přijetí platby ve prospěch naší jednoty za níže uvedeného člena\n a pohybovou aktivitu.",
           "Jméno a pohybová aktivita: neuvedeno", "Rodné číslo (var. symbol): neuvedeno",
           "Detail platby:", "Přijato dne: neuvedeno", "Částka: 200 neuvedeno",
           "Příjemce: Tělocvičná jednota Sokol Brno – Jundrov, IČO: 44995989"]⟩] :
        List ArchiveEntry).map ArchiveEntry.filename = filenamesFrom 1 dates) ∧
    (([⟨"row1_01-02.pdf",
         ["Potvrzujeme přijetí platby ve prospěch naší jednoty za níže uvedeného člena\n a pohybovou aktivitu.",
          "Jméno a pohybová aktivita: neuvedeno", "Rodné číslo (var. symbol): neuvedeno",
          "Detail platby:", "Přijato dne: 01.02", "Částka: 100 neuvedeno",
          "Příjemce: Tělocvičná jednota Sokol Brno – Jundrov, IČO: 44995989"]⟩,
       ⟨"row2_neuvedeno.pdf",
         ["Potvrzujeme přijetí platby ve prospěch naší jednoty za níže uvedeného člena\n a pohybovou aktivitu.",
          "Jméno a pohybová aktivita: neuvedeno", "Rodné číslo (var. symbol): neuvedeno",
          "Detail platby:", "Přijato dne: neuvedeno", "Částka: 200 neuvedeno",
          "Příjemce: Tělocvičná jednota Sokol Brno – Jundrov, IČO: 44995989"]⟩] :
       List ArchiveEntry).map ArchiveEntry.filename).Pairwise (fun a b => a ≠ b) :=
  c4_filenames_sequential_distinct
    [["Částka", "Datum zaúčtování"], ["-50", "x"], ["100", "01.02"], ["200", ""]] _ rfl

/-! ## Claim C8 (zero accepted rows) -/

/-- C8: when every data row is filtered out (which also covers a
header-only CSV, where the row list is empty), processing succeeds with
zero entries and the archive built from them is the valid empty archive
with an empty name list. -/
theorem c8_empty_archive (parsed : List (List String))
    (h : ∀ row ∈ dictReaderRows parsed, ∃ s, rowGet row "Částka" (some "") = some s ∧
      strStartsWithChar s '-' = true) :
    processRows 0 (dictReaderRows parsed) = .ok [] ∧
      zipCreate [] = ⟨[]⟩ ∧ (zipCreate []).namelist = [] :=
  ⟨processRows_all_skip _ 0 h, rfl, rfl⟩

/-- Witness for C8: a CSV whose only data row has a negative amount. -/
theorem c8_empty_archive_witness :
    processRows 0 (dictReaderRows [["Částka"], ["-50"]]) = .ok [] ∧
      zipCreate [] = ⟨[]⟩ ∧ (zipCreate []).namelist = [] :=
  c8_empty_archive [["Částka"], ["-50"]] (by
    intro row hr
    have hrows : dictReaderRows [["Částka"], ["-50"]] = [[("Částka", some "-50")]] := rfl
    rw [hrows, List.mem_singleton] at hr
    subst hr
    exact ⟨"-50", rfl, rfl⟩)

/-! ## Claim C2 (filename date segment) -/

/-- C2, counterexample to the claim as stated: on a row whose
`Datum zaúčtování` CSV value is the empty string, the produced filename
is `row1_neuvedeno.pdf` — the renderer mutates the dict in place before
the caller derives the filename — and not the `row1_.pdf` the claim
requires (the two names differ). -/
theorem c2_raw_filename_claim_fails :
    (runCsvText "Datum zaúčtování,Částka\n,100").map (List.map ArchiveEntry.filename) =
      .ok ["row1_neuvedeno.pdf"] ∧
    (("row1_neuvedeno.pdf" : String) == "row1_.pdf") = false :=
  ⟨rfl, rfl⟩

/-- C2, amended: for every accepted record the filename's date segment is
the post-mutation value of `Datum zaúčtování` (the renderer's in-place
empty→`"neuvedeno"` substitution already applied) with every `.`
replaced by `-`; an empty CSV value therefore yields the segment
`neuvedeno`, a non-empty value is used unchanged, and an absent field
yields the empty segment. -/
theorem c2_filename_from_mutated (c : Nat) (row : Row) (rest : List Row) (s : String)
    (es : List ArchiveEntry)
    (h1 : rowGet row "Částka" (some "") = some s)
    (h2 : strStartsWithChar s '-' = false)
    (h3 : processRows c (row :: rest) = .ok es) :
    ∃ d, rowGet (generate_payment_pdf row).1 "Datum zaúčtování" (some "") = some d ∧
      (es.map ArchiveEntry.filename).head? = some (mkFilename (c + 1) (strReplaceChar d '.' '-')) ∧
      (row.lookup "Datum zaúčtování" = some (some "") → d = NOT_SPECIFIED) ∧
      (∀ v, row.lookup "Datum zaúčtování" = some (some v) → v ≠ "" → d = v) ∧
      (row.lookup "Datum zaúčtování" = none → d = "") := by
  obtain ⟨d, tl, hdn, hes, htl⟩ := processRows_ok_accept h1 h2 h3
  refine ⟨d, by rw [generate_payment_pdf_fst]; exact hdn, by rw [hes]; rfl, ?_, ?_, ?_⟩
  · intro hval
    rw [rowGet_normalizeRow_eq, hval] at hdn
    simpa using hdn.symm
  · intro v hval hne
    rw [rowGet_normalizeRow_eq, hval] at hdn
    have hdn' : (if some v = some "" then some NOT_SPECIFIED else some v) = some d := hdn
    rw [if_neg (by simpa using hne)] at hdn'
    simpa using hdn'.symm
  · intro hval
    rw [rowGet_normalizeRow_eq, hval] at hdn
    simpa using hdn.symm

/-- Witness for C2: a single accepted row with an empty posting date. -/
theorem c2_filename_from_mutated_witness :
    ∃ d, rowGet (generate_payment_pdf [("Datum zaúčtování", some ""), ("Částka", some "100")]).1
        "Datum zaúčtování" (some "") = some d ∧
      (([⟨"row1_neuvedeno.pdf",
          ["Potvrzujeme přijetí platby ve prospěch naší jednoty za níže uvedeného člena\n a pohybovou aktivitu.",
           "Jméno a pohybová aktivita: neuvedeno", "Rodné číslo (var. symbol): neuvedeno",
           "Detail platby:", "Přijato dne: neuvedeno", "Částka: 100 neuvedeno",
           "Příjemce: Tělocvičná jednota Sokol Brno – Jundrov, IČO: 44995989"]⟩] :
        List ArchiveEntry).map ArchiveEntry.filename).head? =
          some (mkFilename (0 + 1) (strReplaceChar d '.' '-')) ∧
      (([("Datum zaúčtování", some ""), ("Částka", some "100")] : Row).lookup "Datum zaúčtování" =
          some (some "") → d = NOT_SPECIFIED) ∧
      (∀ v, ([("Datum zaúčtování", some ""), ("Částka", some "100")] : Row).lookup
          "Datum zaúčtování" = some (some v) → v ≠ "" → d = v) ∧
      (([("Datum zaúčtování", some ""), ("Částka", some "100")] : Row).lookup "Datum zaúčtování" =
          none → d = "") :=
  c2_filename_from_mutated 0 [("Datum zaúčtování", some ""), ("Částka", some "100")] [] "100"
    [⟨"row1_neuvedeno.pdf",
      ["Potvrzujeme přijetí platby ve prospěch naší jednoty za níže uvedeného člena\n a pohybovou aktivitu.",
       "Jméno a pohybová aktivita: neuvedeno", "Rodné číslo (var. symbol): neuvedeno",
       "Detail platby:", "Přijato dne: neuvedeno", "Částka: 100 neuvedeno",
       "Příjemce: Tělocvičná jednota Sokol Brno – Jundrov, IČO: 44995989"]⟩]
    rfl rfl rfl

/-! ## Claim C5 (normalisation before rendering) -/

/-- C5: every field of the record whose value is the empty string is
rewritten to `"neuvedeno"` in the mapping the renderer works on (the
mutation is performed before any body line is built), and every field
absent from the record extracts to `"neuvedeno"`; the posting-date body
line built from that extraction is among the rendered lines. -/
theorem c5_normalization (row : Row) :
    (∀ k, row.lookup k = some (some "") →
      ((generate_payment_pdf row).1).lookup k = some (some NOT_SPECIFIED)) ∧
    (∀ k, row.lookup k = none →
      extractField (generate_payment_pdf row).1 k = NOT_SPECIFIED) ∧
    ("Přijato dne: " ++ extractField (generate_payment_pdf row).1 "Datum zaúčtování") ∈
      (generate_payment_pdf row).2 := by
  refine ⟨?_, ?_, ?_⟩
  · intro k hk
    rw [generate_payment_pdf_fst, lookup_normalizeRow, hk]
    rfl
  · intro k hk
    rw [generate_payment_pdf_fst]
    unfold extractField
    rw [rowGet_normalizeRow_eq, hk]
    rfl
  · simp [generate_payment_pdf]

/-- Witness for C5: a record with one empty field, probing also an
absent field. -/
theorem c5_normalization_witness :
    ((generate_payment_pdf [("Zpráva pro příjemce", some ""), ("Datum zaúčtování", some "01.02")]).1).lookup
        "Zpráva pro příjemce" = some (some NOT_SPECIFIED) ∧
    extractField
        (generate_payment_pdf [("Zpráva pro příjemce", some ""), ("Datum zaúčtování", some "01.02")]).1
        "Částka" = NOT_SPECIFIED ∧
    ("Přijato dne: " ++ extractField
        (generate_payment_pdf [("Zpráva pro příjemce", some ""), ("Datum zaúčtování", some "01.02")]).1
        "Datum zaúčtování") ∈
      (generate_payment_pdf [("Zpráva pro příjemce", some ""), ("Datum zaúčtování", some "01.02")]).2 :=
  ⟨(c5_normalization [("Zpráva pro příjemce", some ""), ("Datum zaúčtování", some "01.02")]).1
      "Zpráva pro příjemce" rfl,
   (c5_normalization [("Zpráva pro příjemce", some ""), ("Datum zaúčtování", some "01.02")]).2.1
      "Částka" rfl,
   (c5_normalization [("Zpráva pro příjemce", some ""), ("Datum zaúčtování", some "01.02")]).2.2⟩

/-! ## Claim C6 (amount body line) -/

/-- C6: the rendered body contains the line `"Částka: "` followed by the
extracted `Částka` value, a single space, and the extracted `Měna`
value; a field absent from the record extracts to the sentinel, and a
present non-empty value is used unchanged. -/
theorem c6_amount_line (row : Row) :
    ("Částka: " ++ extractField (generate_payment_pdf row).1 "Částka" ++ " " ++
        extractField (generate_payment_pdf row).1 "Měna") ∈ (generate_payment_pdf row).2 ∧
    (row.lookup "Částka" = none →
      extractField (generate_payment_pdf row).1 "Částka" = NOT_SPECIFIED) ∧
    (row.lookup "Měna" = none →
      extractField (generate_payment_pdf row).1 "Měna" = NOT_SPECIFIED) ∧
    (∀ v, row.lookup "Částka" = some (some v) → v ≠ "" →
      extractField (generate_payment_pdf row).1 "Částka" = v) := by
  refine ⟨?_, ?_, ?_, ?_⟩
  · simp [generate_payment_pdf]
  · intro hk
    rw [generate_payment_pdf_fst]
    unfold extractField
    rw [rowGet_normalizeRow_eq, hk]
    rfl
  · intro hk
    rw [generate_payment_pdf_fst]
    unfold extractField
    rw [rowGet_normalizeRow_eq, hk]
    rfl
  · intro v hk hv
    rw [generate_payment_pdf_fst]
    unfold extractField
    rw [rowGet_normalizeRow_eq, hk]
    show pyFormat (if some v = some "" then some NOT_SPECIFIED else some v) = v
    rw [if_neg (by simpa using hv)]
    rfl

/-- Witness for C6: one record carrying both amount and currency, and
one record lacking the currency. -/
theorem c6_amount_line_witness :
    ("Částka: " ++ extractField (generate_payment_pdf [("Částka", some "150"), ("Měna", some "CZK")]).1
          "Částka" ++ " " ++
        extractField (generate_payment_pdf [("Částka", some "150"), ("Měna", some "CZK")]).1 "Měna") ∈
      (generate_payment_pdf [("Částka", some "150"), ("Měna", some "CZK")]).2 ∧
    extractField (generate_payment_pdf [("Částka", some "150"), ("Měna", some "CZK")]).1 "Částka" =
      "150" ∧
    extractField (generate_payment_pdf [("Částka", some "1")]).1 "Měna" = NOT_SPECIFIED :=
  ⟨(c6_amount_line [("Částka", some "150"), ("Měna", some "CZK")]).1,
   (c6_amount_line [("Částka", some "150"), ("Měna", some "CZK")]).2.2.2 "150" rfl (by decide),
   (c6_amount_line [("Částka", some "1")]).2.2.1 rfl⟩

/-! ## Claim C10 (in-place mutation visible to the caller) -/

/-- C10: the renderer overwrites, in the very mapping object it was
given, every empty-string value with `"neuvedeno"` (all other bindings
unchanged), and the caller's subsequent filename derivation reads that
mutated mapping: a row whose `Datum zaúčtování` CSV value is empty gets
the filename date segment `neuvedeno`. -/
theorem c10_renderer_mutates (row : Row) :
    (∀ k v, row.lookup k = some v →
      ((generate_payment_pdf row).1).lookup k =
        some (if v = some "" then some NOT_SPECIFIED else v)) ∧
    (∀ c rest es s, rowGet row "Částka" (some "") = some s →
      strStartsWithChar s '-' = false →
      row.lookup "Datum zaúčtování" = some (some "") →
      processRows c (row :: rest) = .ok es →
      (es.map ArchiveEntry.filename).head? = some (mkFilename (c + 1) NOT_SPECIFIED)) := by
  constructor
  · intro k v hv
    rw [generate_payment_pdf_fst, lookup_normalizeRow, hv]
    rfl
  · intro c rest es s hA hs hval h
    obtain ⟨d, tl, hdn, hes, htl⟩ := processRows_ok_accept hA hs h
    have hd : d = NOT_SPECIFIED := by
      rw [rowGet_normalizeRow_eq, hval] at hdn
      simpa using hdn.symm
    have hrepl : strReplaceChar d '.' '-' = NOT_SPECIFIED := by
      rw [hd]
      decide
    rw [hes, hrepl]
    rfl

/-- Witness for C10: an accepted row with an empty posting date; the
mutated mapping and the resulting filename are both observed. -/
theorem c10_renderer_mutates_witness :
    ((generate_payment_pdf [("Datum zaúčtování", some ""), ("Částka", some "20")]).1).lookup
        "Datum zaúčtování" = some (some NOT_SPECIFIED) ∧
    (([⟨"row1_neuvedeno.pdf",
        ["Potvrzujeme přijetí platby ve prospěch naší jednoty za níže uvedeného člena\n a pohybovou aktivitu.",
         "Jméno a pohybová aktivita: neuvedeno", "Rodné číslo (var. symbol): neuvedeno",
         "Detail platby:", "Přijato dne: neuvedeno", "Částka: 20 neuvedeno",
         "Příjemce: Tělocvičná jednota Sokol Brno – Jundrov, IČO: 44995989"]⟩] :
      List ArchiveEntry).map ArchiveEntry.filename).head? =
        some (mkFilename (0 + 1) NOT_SPECIFIED) :=
  ⟨by
    have h := (c10_renderer_mutates [("Datum zaúčtování", some ""), ("Částka", some "20")]).1
      "Datum zaúčtování" (some "") rfl
    simpa using h,
   (c10_renderer_mutates [("Datum zaúčtování", some ""), ("Částka", some "20")]).2 0 []
    [⟨"row1_neuvedeno.pdf",
      ["Potvrzujeme přijetí platby ve prospěch naší jednoty za níže uvedeného člena\n a pohybovou aktivitu.",
       "Jméno a pohybová aktivita: neuvedeno", "Rodné číslo (var. symbol): neuvedeno",
       "Detail platby:", "Přijato dne: neuvedeno", "Částka: 20 neuvedeno",
       "Příjemce: Tělocvičná jednota Sokol Brno – Jundrov, IČO: 44995989"]⟩]
    "20" rfl rfl rfl rfl⟩

/-! ## Decoder lemmas -/

theorem utf16Payload_mem (bs : List Nat) (b : Nat) (hb : b ∈ (utf16Payload bs).2) : b ∈ bs := by
  rcases bs with _ | ⟨b0, _ | ⟨b1, rest⟩⟩
  · simpa [utf16Payload] using hb
  · simp only [utf16Payload] at hb
    exact hb
  · simp only [utf16Payload] at hb
    by_cases h1 : b0 = 0xFF ∧ b1 = 0xFE
    · rw [if_pos h1] at hb
      exact List.mem_cons_of_mem _ (List.mem_cons_of_mem _ hb)
    · rw [if_neg h1] at hb
      by_cases h2 : b0 = 0xFE ∧ b1 = 0xFF
      · rw [if_pos h2] at hb
        exact List.mem_cons_of_mem _ (List.mem_cons_of_mem _ hb)
      · rw [if_neg h2] at hb
        exact hb

theorem utf16Units_lt (be : Bool) : ∀ bs : List Nat, (∀ b ∈ bs, b < 256) →
    ∀ u ∈ (utf16Units be bs).1, u < 65536
  | [] => by intro _ u hu; simp [utf16Units] at hu
  | [b] => by intro _ u hu; simp [utf16Units] at hu
  | b0 :: b1 :: rest => by
    intro h u hu
    simp only [utf16Units, List.mem_cons] at hu
    rcases hu with he | ht
    · have hb0 := h b0 (by simp)
      have hb1 := h b1 (by simp)
      subst he
      cases be <;> simp <;> omega
    · exact utf16Units_lt be rest
        (fun b hb => h b (List.mem_cons_of_mem _ (List.mem_cons_of_mem _ hb))) u ht

theorem decodeUnitsReplace_scalar : ∀ us : List Nat, (∀ u ∈ us, u < 65536) →
    ∀ c ∈ decodeUnitsReplace us, IsScalarValue c
  | [] => by intro _ c hc; simp [decodeUnitsReplace] at hc
  | [u] => by
    intro h c hc
    have hu16 := h u (by simp)
    simp only [decodeUnitsReplace] at hc
    by_cases hu : u < 0xD800 ∨ 0xE000 ≤ u
    · rw [if_pos hu] at hc
      rw [List.mem_singleton] at hc
      subst hc
      exact ⟨by omega, hu⟩
    · rw [if_neg hu] at hc
      rw [List.mem_singleton] at hc
      subst hc
      exact ⟨by omega, by omega⟩
  | u :: v :: rest => by
    intro h c hc
    have hu16 := h u (by simp)
    have hv16 := h v (by simp)
    have hrest : ∀ x ∈ rest, x < 65536 :=
      fun x hx => h x (List.mem_cons_of_mem _ (List.mem_cons_of_mem _ hx))
    have hvrest : ∀ x ∈ v :: rest, x < 65536 :=
      fun x hx => h x (List.mem_cons_of_mem _ hx)
    simp only [decodeUnitsReplace] at hc
    by_cases hu : u < 0xD800 ∨ 0xE000 ≤ u
    · rw [if_pos hu] at hc
      rcases List.mem_cons.mp hc with he | ht
      · subst he; exact ⟨by omega, hu⟩
      · exact decodeUnitsReplace_scalar (v :: rest) hvrest c ht
    · rw [if_neg hu] at hc
      push_neg at hu
      by_cases hu2 : u < 0xDC00
      · rw [if_pos hu2] at hc
        by_cases hv : 0xDC00 ≤ v ∧ v < 0xE000
        · rw [if_pos hv] at hc
          rcases List.mem_cons.mp hc with he | ht
          · exact ⟨by omega, Or.inr (by omega)⟩
          · exact decodeUnitsReplace_scalar rest hrest c ht
        · rw [if_neg hv] at hc
          rcases List.mem_cons.mp hc with he | ht
          · subst he; exact ⟨by omega, by omega⟩
          · exact decodeUnitsReplace_scalar (v :: rest) hvrest c ht
      · rw [if_neg hu2] at hc
        rcases List.mem_cons.mp hc with he | ht
        · subst he; exact ⟨by omega, by omega⟩
        · exact decodeUnitsReplace_scalar (v :: rest) hvrest c ht

theorem decodeUnitsStrict_some : ∀ us out, decodeUnitsStrict us = some out →
    decodeUnitsReplace us = out
  | [] => by
    intro out h
    simp only [decodeUnitsStrict, Option.some.injEq] at h
    subst h
    rfl
  | [u] => by
    intro out h
    simp only [decodeUnitsStrict] at h
    by_cases hu : u < 0xD800 ∨ 0xE000 ≤ u
    · rw [if_pos hu] at h
      simp only [Option.some.injEq] at h
      subst h
      simp [decodeUnitsReplace, hu]
    · rw [if_neg hu] at h
      cases h
  | u :: v :: rest => by
    intro out h
    simp only [decodeUnitsStrict] at h
    by_cases hu : u < 0xD800 ∨ 0xE000 ≤ u
    · rw [if_pos hu] at h
      rcases Option.map_eq_some'.mp h with ⟨tl, htl, hout⟩
      subst hout
      simp only [decodeUnitsReplace, if_pos hu]
      rw [decodeUnitsStrict_some (v :: rest) tl htl]
    · rw [if_neg hu] at h
      by_cases hu2 : u < 0xDC00
      · rw [if_pos hu2] at h
        by_cases hv : 0xDC00 ≤ v ∧ v < 0xE000
        · rw [if_pos hv] at h
          rcases Option.map_eq_some'.mp h with ⟨tl, htl, hout⟩
          subst hout
          simp only [decodeUnitsReplace, if_neg hu, if_pos hu2, if_pos hv]
          rw [decodeUnitsStrict_some rest tl htl]
        · rw [if_neg hv] at h
          cases h
      · rw [if_neg hu2] at h
        cases h

theorem decodeUnitsStrict_none : ∀ us, decodeUnitsStrict us = none →
    65533 ∈ decodeUnitsReplace us
  | [] => by intro h; cases h
  | [u] => by
    intro h
    simp only [decodeUnitsStrict] at h
    by_cases hu : u < 0xD800 ∨ 0xE000 ≤ u
    · rw [if_pos hu] at h; cases h
    · simp [decodeUnitsReplace, if_neg hu]
  | u :: v :: rest => by
    intro h
    simp only [decodeUnitsStrict] at h
    by_cases hu : u < 0xD800 ∨ 0xE000 ≤ u
    · rw [if_pos hu] at h
      have : decodeUnitsStrict (v :: rest) = none := Option.map_eq_none'.mp h
      simp only [decodeUnitsReplace, if_pos hu]
      exact List.mem_cons_of_mem u (decodeUnitsStrict_none (v :: rest) this)
    · rw [if_neg hu] at h
      by_cases hu2 : u < 0xDC00
      · rw [if_pos hu2] at h
        by_cases hv : 0xDC00 ≤ v ∧ v < 0xE000
        · rw [if_pos hv] at h
          have : decodeUnitsStrict rest = none := Option.map_eq_none'.mp h
          simp only [decodeUnitsReplace, if_neg hu, if_pos hu2, if_pos hv]
          exact List.mem_cons_of_mem _ (decodeUnitsStrict_none rest this)
        · simp [decodeUnitsReplace, if_neg hu, if_pos hu2, if_neg hv]
      · simp [decodeUnitsReplace, if_neg hu, if_neg hu2]

/-! ## Claim C7 (lossy UTF-16 decode) -/

/-- C7: decoding is total UTF-16 with lossy replacement: every produced
code point is a Unicode scalar value, well-formed input decodes exactly
as the strict decoder would, and whenever the strict decoder would raise
(`decodeUtf16Strict bs = none`) the lossy decoder still yields a value
containing the replacement character U+FFFD. -/
theorem c7_utf16_lossy_decode (bs : List Nat) (hb : ∀ b ∈ bs, b < 256) :
    (∀ c ∈ decodeUtf16Replace bs, IsScalarValue c) ∧
    (∀ out, decodeUtf16Strict bs = some out → decodeUtf16Replace bs = out) ∧
    (decodeUtf16Strict bs = none → 65533 ∈ decodeUtf16Replace bs) := by
  have hbp : ∀ b ∈ (utf16Payload bs).2, b < 256 := fun b h => hb b (utf16Payload_mem bs b h)
  have hunits : ∀ u ∈ (utf16Units (utf16Payload bs).1 (utf16Payload bs).2).1, u < 65536 :=
    utf16Units_lt (utf16Payload bs).1 (utf16Payload bs).2 hbp
  refine ⟨?_, ?_, ?_⟩
  · intro c hc
    unfold decodeUtf16Replace at hc
    rcases List.mem_append.mp hc with h | h
    · exact decodeUnitsReplace_scalar _ hunits c h
    · by_cases hodd : (utf16Units (utf16Payload bs).1 (utf16Payload bs).2).2
      · rw [if_pos hodd, List.mem_singleton] at h
        subst h
        exact ⟨by omega, by omega⟩
      · rw [if_neg hodd] at h
        cases h
  · intro out hsome
    unfold decodeUtf16Strict at hsome
    unfold decodeUtf16Replace
    by_cases hodd : (utf16Units (utf16Payload bs).1 (utf16Payload bs).2).2
    · rw [if_pos hodd] at hsome
      cases hsome
    · rw [if_neg hodd] at hsome
      rw [if_neg hodd, List.append_nil]
      exact decodeUnitsStrict_some _ out hsome
  · intro hnone
    unfold decodeUtf16Strict at hnone
    unfold decodeUtf16Replace
    by_cases hodd : (utf16Units (utf16Payload bs).1 (utf16Payload bs).2).2
    · rw [if_pos hodd]
      exact List.mem_append.mpr (Or.inr (by simp))
    · rw [if_neg hodd] at hnone
      rw [if_neg hodd, List.append_nil]
      exact decodeUnitsStrict_none _ hnone

/-- Witness for C7: the single byte `0x41` is not valid UTF-16 (odd
length), the strict decoder rejects it, and the lossy decoder produces
the replacement character. -/
theorem c7_utf16_lossy_decode_witness :
    decodeUtf16Strict [65] = none ∧ 65533 ∈ decodeUtf16Replace [65] :=
  ⟨rfl, (c7_utf16_lossy_decode [65] (by decide)).2.2 rfl⟩

/-! ## Claim C9 (missing upload) -/

/-- C9: a `POST` without an upload file gets the plain client-error
response `"No file uploaded."` with status 400 — no decoding, rendering
or archive construction happens, the endpoint returns that response
directly. -/
theorem c9_missing_upload :
    index_post none = .ok (.clientError "No file uploaded." 400) :=
  rfl
